import Mathlib

/-!
# ash::buddy_system — verification development

Shallow embedding of `src/source/memory/buddy_system.cpp`.

* `buddy_system.default`, `buddy_system.init` and `buddy_system.construct` are
  translated from the source file (lines 10-49).
* The buddy table, the block pool, `_init_free_list_vec`, `allocate` and
  `deallocate` live in headers that are not part of the source tree; they are
  modelled from the specification and from the worked example documented in
  the source comment (lines 51-165).  Every such definition says so.

Addresses and sizes are natural numbers; `nullptr` is address `0`.  The
coefficient type `cof_type` is declared in the absent header; following the
specification ("integer number of alignment units") it is an exact integer,
so no wrap-around is modelled.  The `fprintf` at the end of `init` has no
effect on the state and is left out.
-/

namespace ash

/-! ## Data model -/

/-- Modelled from the spec: the region descriptor `memrgn_t` (declared in an
absent header), "an opaque {base address, byte length} record" (section 1).
`init` reads its members `ptr` and `size` (lines 32 and 48). -/
structure memrgn_t where
  ptr : Nat
  size : Nat
deriving DecidableEq, Repr

/-- Modelled from the spec: `cof_type` (declared in the absent header
`ash/memory/buddy_system.h`) is an integer count of alignment units. -/
abbrev cof_type := Nat

/-- Modelled from the spec: the block record (its declaration is in the absent
header).  The fields `cof`, `blkidx`, `rgn`, `pair`, `parent`, `in_use` are the
ones `init` assigns (lines 38-43); pointers to blocks are pool slots and
`nullptr` is `none`.  The field `split` stands for the third state of the
tri-state status `Free / InUse / Split` of section 3, which the flag `in_use`
alone cannot express; a record that was never marked is not split. -/
structure block where
  cof : Nat
  blkidx : Nat
  rgn : memrgn_t
  pair : Option Nat
  parent : Option Nat
  in_use : Bool
  split : Bool := false
deriving DecidableEq, Repr

/-- Modelled from the spec: the tri-state status of a block (section 3). -/
inductive block_status where
  | Free
  | InUse
  | Split
deriving DecidableEq, Repr

/-- Modelled from the spec: the status a block record is in; `in_use = false`,
as `init` sets it on the root block, is Free unless the block was split. -/
def block.status (b : block) : block_status :=
  if b.in_use then block_status.InUse
  else if b.split then block_status.Split
  else block_status.Free

/-- Modelled from the spec: marking a block Free (section 4.3 steps 2 and 3). -/
def block.mark_free (b : block) : block := { b with in_use := false, split := false }

/-- Modelled from the spec: marking a block InUse (section 4.2 steps 3 and 5). -/
def block.mark_in_use (b : block) : block := { b with in_use := true, split := false }

/-- Modelled from the spec: marking a block Split (section 4.2 step 5). -/
def block.mark_split (b : block) : block := { b with in_use := false, split := true }

/-- Modelled from the spec: the category of a table entry (section 3; columns U,
F, R of the table documented in source lines 72-85). -/
inductive buddy_category where
  | Unique
  | Frequent
  | Rare
deriving DecidableEq, Repr

/-- Modelled from the spec: the pattern tag of a table entry (section 3; column
Pattern of the documented table, `NA` for "N/A"). -/
inductive buddy_pattern where
  | NA
  | A1B3
  | A3B1
deriving DecidableEq, Repr

/-- Modelled from the spec: one row of the buddy table (section 3, TableEntry),
with the columns of the documented table (source lines 72-85): Lev, Cof,
U/F/R, Pattern, Dist, Off. -/
structure buddy_table_entry where
  level : Nat
  cof : Nat
  category : buddy_category
  pattern : buddy_pattern
  dist : Nat
  off : Nat
deriving DecidableEq, Repr

/-! ## Buddy table (modelled) -/

/-- Modelled from the spec: the two children of a coefficient, `ceil(cof/2)`
first and `floor(cof/2)` second (section 4.1; the coefficient tree of source
lines 55-68). -/
def split_cof (c : Nat) : List Nat := [(c + 1) / 2, c / 2]

/-- Modelled from the spec: a coefficient is split when both halves "exceed or
equal `min_cof`"; otherwise its entry is a leaf.  Section 4.1 words this
condition for the evenly divisible case; the model applies it to both cases, so
that no row is below the minimum coefficient.  Under this rule the table for
root 232 and minimum 3 is the documented one, which stops at the level holding
4 and 3; the documented table has no row at which the two cases differ. -/
def splittable (min_cof c : Nat) : Bool := decide (min_cof ≤ c / 2)

/-- Modelled from the spec: the children produced below one table level, in
tree order; this is the "window" in which section 4.1 counts how often a
value occurs (`[8, 7, 7, 7]` below the documented level `15, 14`). -/
def level_window (min_cof : Nat) (lvl : List Nat) : List Nat :=
  (lvl.filter (splittable min_cof)).flatMap split_cof

/-- Modelled from the spec: the distinct coefficients of the next level; equal
children met on different branches are merged into one entry (section 4.1). -/
def next_level (min_cof : Nat) (lvl : List Nat) : List Nat :=
  (level_window min_cof lvl).dedup

/-- Modelled from the spec: the nodes at depth `d` of the coefficient tree drawn
in the source (lines 55-68): every coefficient is split into `ceil(c/2)` and
`floor(c/2)`, whatever the minimum coefficient. -/
def tree_level (n : Nat) : Nat → List Nat
  | 0 => [n]
  | d + 1 => (tree_level n d).flatMap split_cof

/-- Modelled from the spec: the category of coefficient `c` on a level whose
window is `win`: `Unique` on the linear chain below the root, otherwise
`Frequent` when `c` is the more common value of the window and `Rare` when it
is not (section 4.1); a tie counts as rare, as on the documented first binary
level `15, 14`. -/
def entry_category (linear : Bool) (win : List Nat) (c : Nat) : buddy_category :=
  if linear then buddy_category.Unique
  else if win.length - win.count c < win.count c then buddy_category.Frequent
  else buddy_category.Rare

/-- Modelled from the spec: the pattern of a level whose larger coefficient is
`a` and whose window is `win`: `A1B3` when the larger value is the less
common one, `A3B1` otherwise, none on the linear chain (section 4.1 and the
column Pattern of the documented table). -/
def level_pattern (linear : Bool) (win : List Nat) (a : Nat) : buddy_pattern :=
  if linear then buddy_pattern.NA
  else if win.count a < win.length - win.count a then buddy_pattern.A1B3
  else buddy_pattern.A3B1

/-- Modelled from the spec: the rows of one level.  `prev_len` is the number of
rows of the level above, `win` the window the level was merged from.  As in
the documented table, `off` is the position of the row on its level and
`dist` the distance from the row back to the first row of the level above
(`0` for the root). -/
def level_entries (lev prev_len : Nat) (linear : Bool) (win lvl : List Nat) :
    List buddy_table_entry :=
  lvl.enum.map fun p =>
    { level := lev
      cof := p.2
      category := entry_category linear win p.2
      pattern := level_pattern linear win (lvl.headD 0)
      dist := if lev = 0 then 0 else p.1 + prev_len
      off := p.1 }

/-- Modelled from the spec: the rows of the table from level `lev` on, level by
level (section 4.1, "iteratively, breadth-first").  `linear` says that every
level above had a single row; `fuel` bounds the number of levels. -/
def table_entries (min_cof : Nat) :
    Nat → Nat → Nat → Bool → List Nat → List Nat → List buddy_table_entry
  | 0, _, _, _, _, _ => []
  | fuel + 1, lev, prev_len, linear, win, lvl =>
    if lvl = [] then []
    else
      let lin := linear && decide (lvl.length = 1)
      level_entries lev prev_len lin win lvl ++
        table_entries min_cof fuel (lev + 1) lvl.length lin
          (level_window min_cof lvl) (next_level min_cof lvl)

/-- Modelled from the spec: the buddy table (the type of the member `_tbl`,
declared in the absent header): its rows and the minimum coefficient it was
built for. -/
structure buddy_table where
  entries : List buddy_table_entry
  min_cof : Nat
deriving DecidableEq, Repr

/-- Modelled from the spec: `_tbl.size()` (line 44), the number of rows. -/
def buddy_table.size (t : buddy_table) : Nat := t.entries.length

/-- Modelled from the spec: `_tbl.max_level()` (line 46), the deepest level. -/
def buddy_table.max_level (t : buddy_table) : Nat :=
  match t.entries.getLast? with
  | some e => e.level
  | none => 0

/-- Modelled from the spec: the table of a default-constructed system, without
rows. -/
def buddy_table.empty : buddy_table := { entries := [], min_cof := 0 }

/-- Modelled from the spec: `buddy_table::init(root_cof, align, min_cof)` (its
code is in the absent header).  Construction "fails if root coefficient <
min_cof, or if min_cof < 1" (section 4.1); otherwise the table is the list of
rows of all levels, root first.  The rows count alignment units, so they do
not depend on `align`. -/
def buddy_table.init (root_cof : Nat) (_align : Nat) (min_cof : Nat) :
    Option buddy_table :=
  if min_cof < 1 ∨ root_cof < min_cof then none
  else some
    { entries := table_entries min_cof (root_cof + 1) 0 0 true [] [root_cof]
      min_cof := min_cof }

/-- Modelled from the spec: row `i` of the table, if there is one. -/
def buddy_table.entry (t : buddy_table) (i : Nat) : Option buddy_table_entry := t.entries[i]?

/-- Modelled from the spec: the index of the row with the given level and
coefficient, if the table has one. -/
def buddy_table.index_of (t : buddy_table) (lev : Nat) (c : Nat) : Option Nat :=
  let i := t.entries.findIdx fun e => decide (e.level = lev) && decide (e.cof = c)
  if i < t.entries.length then some i else none

/-- Modelled from the spec: the "table-prescribed children" of row `i` (section
4.2 step 5): the rows one level down that hold `ceil(cof/2)` and
`floor(cof/2)`; a leaf row has none. -/
def buddy_table.children (t : buddy_table) (i : Nat) : Option (Nat × Nat) :=
  match t.entry i with
  | none => none
  | some e =>
    if splittable t.min_cof e.cof then
      match t.index_of (e.level + 1) ((e.cof + 1) / 2), t.index_of (e.level + 1) (e.cof / 2) with
      | some i1, some i2 => some (i1, i2)
      | _, _ => none
    else none

/-- Modelled from the spec: row `p` has row `j` among its children. -/
def buddy_table.is_child (t : buddy_table) (p j : Nat) : Bool :=
  match t.children p with
  | some (i1, i2) => decide (j = i1) || decide (j = i2)
  | none => false

/-- Modelled from the spec: the rows that can be split into a block of row `j`
(column Parent of the documented route table, source lines 109-117). -/
def buddy_table.parents (t : buddy_table) (j : Nat) : List Nat :=
  (List.range t.size).filter fun p => t.is_child p j

/-- Modelled from the spec: the rows on the level of row `i` whose coefficient
is at least that of row `i`, the rows a request with seed `i` can be served
from (column Cand of the documented route table at step 0: rows 8 and 9 for
seed 9). -/
def buddy_table.candidates (t : buddy_table) (i : Nat) : List Nat :=
  match t.entry i with
  | none => []
  | some e =>
    (List.range t.size).filter fun j =>
      match t.entry j with
      | some e' => decide (e'.level = e.level) && decide (e.cof ≤ e'.cof)
      | none => false

/-- Modelled from the spec: row `i` is flagged Frequent. -/
def buddy_table.is_frequent (t : buddy_table) (i : Nat) : Bool :=
  match t.entry i with
  | some e => decide (e.category = buddy_category.Frequent)
  | none => false

/-- Modelled from the spec: the order in which the rows of one level are looked
up: the Frequent row last, and among rows that are not Frequent the higher
index first (rows 6 then 7 in steps 1-1 and 1-2 of the documented route table,
rows 5 then 4 in steps 2-1 and 2-2).  The row looked up last is the one that
joins the route when every lookup misses. -/
def buddy_table.lookup_order (t : buddy_table) (l : List Nat) : List Nat :=
  (l.filter fun i => !t.is_frequent i).reverse ++ l.filter fun i => t.is_frequent i

/-- Modelled from the spec: the coefficient of the root row. -/
def buddy_table.root_cof (t : buddy_table) : Nat :=
  match t.entry 0 with
  | some e => e.cof
  | none => 0

/-- Modelled from the spec: the seed index, "the smallest table entry whose
coefficient is ≥ requested coefficient" (section 4.2 step 2); of two rows with
the same coefficient the deeper one is taken. -/
def buddy_table.seed (t : buddy_table) (req : Nat) : Option Nat :=
  (t.entries.enum.foldl
    (fun (best : Option (Nat × Nat)) p =>
      if req ≤ p.2.cof then
        match best with
        | none => some (p.1, p.2.cof)
        | some (i, c) => if p.2.cof ≤ c then some (p.1, p.2.cof) else some (i, c)
      else best)
    none).map Prod.fst

/-! ## Block pool and free-list vector (modelled) -/

/-- Modelled from the spec: the block pool (member `_block_pool`, absent header)
is a list of slots; a slot holds a live block record or `none`.  This is the
lookup of the record in a slot. -/
def block_pool.get (pool : List (Option block)) (id : Nat) : Option block := pool.getD id none

/-- Modelled from the spec: `_block_pool.malloc()` hands out the slot of a
record that is not live, a recycled slot when there is one and a new slot
otherwise ("creates and recycles Block records", section 2). -/
def block_pool.malloc (pool : List (Option block)) : Nat := pool.findIdx Option.isNone

/-- Modelled from the spec: writing a record into a slot handed out by
`malloc`; the slot one past the end grows the pool. -/
def block_pool.store (pool : List (Option block)) (id : Nat) (b : block) : List (Option block) :=
  if id < pool.length then pool.set id (some b) else pool ++ [some b]

/-- Modelled from the spec: `_init_free_list_vec(n, _node_pool)` returns `n`
empty lists, one per table row (section 3, FreeListVector). -/
def _init_free_list_vec (n : Nat) : List (List Nat) := List.replicate n []

/-- Modelled from the spec: the free list of table index `i`; the free-list
vector is a list of lists of block slots, front first. -/
def flist_at (v : List (List Nat)) (i : Nat) : List Nat := v.getD i []

/-- Modelled from the spec: insertion at the front of list `i`,
`_flist_v[i].emplace_front(block)` (line 45; "insertion is LIFO", section 3). -/
def flist_push (v : List (List Nat)) (i id : Nat) : List (List Nat) := v.modify (fun l => id :: l) i

/-- Modelled from the spec: removal of the front of list `i` (section 4.2 step 3,
"pop its most recently inserted Block"). -/
def flist_pop (v : List (List Nat)) (i : Nat) : List (List Nat) := v.modify List.tail i

/-- Modelled from the spec: `ash::is_aligned_address` (absent header
`ash/pointer.h`): the address is a multiple of the alignment. -/
def is_aligned_address (ptr align : Nat) : Bool := decide (ptr % align = 0)

/-- The members of `buddy_system` that the constructor and `init` write (lines
11-16 and 33-47), under their names in the source.  A null `_flist_v` is the
empty vector.  `_status` and `_node_pool` hold no information the model uses
and are left out. -/
structure buddy_system where
  _rgn : memrgn_t
  _align : Nat
  _max_blk_size : Nat
  _tbl : buddy_table
  _block_pool : List (Option block)
  _flist_v : List (List Nat)
  _route : List Nat
  _total_allocated_size : Nat
deriving DecidableEq, Repr

/-- Ways in which `init` does not complete: the assertion of line 31 fails, the
division of line 32 is by zero, the table construction of line 36 fails, or
line 45 indexes an empty vector. -/
inductive init_failure where
  | assertion_failed
  | division_by_zero
  | construction_error
  | out_of_range
deriving DecidableEq, Repr

/-- The default constructor `buddy_system::buddy_system()` (lines 10-17). -/
def buddy_system.default : buddy_system :=
  { _rgn := { ptr := 0, size := 0 }
    _align := 0
    _max_blk_size := 0
    _tbl := buddy_table.empty
    _block_pool := []
    _flist_v := []
    _route := []
    _total_allocated_size := 0 }

/-- The member `buddy_system::init` (lines 28-49), statement by statement.  The
assertion of line 31 reads the member `_rgn`, which still holds the value from
before the call; the argument `rgn` is stored in line 33.  `reserve` (line 46)
leaves the contents of `_route` as they are. -/
def buddy_system.init (self : buddy_system) (rgn : memrgn_t) (align : Nat) (min_cof : Nat) :
    Except init_failure buddy_system :=
  if is_aligned_address self._rgn.ptr align = false then Except.error init_failure.assertion_failed
  else if align = 0 then Except.error init_failure.division_by_zero
  else
    let root_cof : cof_type := rgn.size / align
    match buddy_table.init root_cof align min_cof with
    | none => Except.error init_failure.construction_error
    | some tbl =>
      let id := block_pool.malloc self._block_pool
      let blk : block :=
        { cof := root_cof, blkidx := 0, rgn := rgn, pair := none, parent := none, in_use := false }
      if tbl.size = 0 then Except.error init_failure.out_of_range
      else Except.ok
        { _rgn := rgn
          _align := align
          _max_blk_size := root_cof * align
          _tbl := tbl
          _block_pool := block_pool.store self._block_pool id blk
          _flist_v := flist_push (_init_free_list_vec tbl.size) 0 id
          _route := self._route
          _total_allocated_size := 0 }

/-- The constructor `buddy_system(rgn, align, min_cof)` (lines 23-26): the
default constructor followed by `init`. -/
def buddy_system.construct (rgn : memrgn_t) (align : Nat) (min_cof : Nat) :
    Except init_failure buddy_system :=
  buddy_system.default.init rgn align min_cof

/-! ## Allocation and deallocation (modelled) -/

/-- Modelled from the spec: the failures of `allocate` (sections 4.2 and 7). -/
inductive alloc_failure where
  | SizeTooLarge
  | UnsupportedSize
  | OutOfMemory
deriving DecidableEq, Repr

/-- Modelled from the spec: the route search of section 4.2 step 4, following
the documented route table (source lines 105-118).  `cands` are the rows to
look up on the current level, in lookup order.  The first row whose free list
is non-empty ends the route (HIT).  When all miss, the row looked up last
joins the route and the search moves to its parents; a level without rows
(above the root) means no free ancestor exists. -/
def route_search (t : buddy_table) (flist : List (List Nat)) :
    Nat → List Nat → List Nat → Option (List Nat)
  | 0, _, _ => none
  | fuel + 1, cands, route =>
    match cands.find? fun i => !(flist_at flist i).isEmpty with
    | some i => some (route ++ [i])
    | none =>
      match cands.getLast? with
      | none => none
      | some p => route_search t flist fuel (t.lookup_order (t.parents p)) (route ++ [p])

/-- Modelled from the spec: the route of an allocation with seed index `seed`:
the cache check of section 4.2 step 3 first, then the route search starting
from the candidates on the seed's level. -/
def find_route (t : buddy_table) (flist : List (List Nat)) (seed : Nat) : Option (List Nat) :=
  if (flist_at flist seed).isEmpty then
    route_search t flist (t.size + 1) (t.lookup_order (t.candidates seed)) []
  else some [seed]

/-- Modelled from the spec: one split of section 4.2 steps 5 and 6.  Block `cur`
is split into two new blocks whose coefficients are those of the children rows
of its table index; the first child covers the low sub-range and the second
the high one; they are linked as a pair with `cur` as parent; the child that
is not on the route goes to the free list of its table index; `cur` becomes
Split.  The result is the new state and the child on the route (row `next`);
when both children have row `next` the first child is taken. -/
def split_block (s : buddy_system) (cur next : Nat) : Option (buddy_system × Nat) :=
  match block_pool.get s._block_pool cur with
  | none => none
  | some b =>
    match s._tbl.children b.blkidx with
    | none => none
    | some (i1, i2) =>
      match s._tbl.entry i1, s._tbl.entry i2 with
      | some e1, some e2 =>
        let id1 := block_pool.malloc s._block_pool
        let c1 : block :=
          { cof := e1.cof, blkidx := i1, rgn := { ptr := b.rgn.ptr, size := e1.cof * s._align }
            pair := none, parent := some cur, in_use := false }
        let pool1 := block_pool.store s._block_pool id1 c1
        let id2 := block_pool.malloc pool1
        let c2 : block :=
          { cof := e2.cof, blkidx := i2
            rgn := { ptr := b.rgn.ptr + e1.cof * s._align, size := e2.cof * s._align }
            pair := some id1, parent := some cur, in_use := false }
        let pool2 := block_pool.store pool1 id2 c2
        let pool3 := block_pool.store pool2 id1 { c1 with pair := some id2 }
        let pool4 := block_pool.store pool3 cur b.mark_split
        if next = i1 then
          some ({ s with _block_pool := pool4, _flist_v := flist_push s._flist_v i2 id2 }, id1)
        else if next = i2 then
          some ({ s with _block_pool := pool4, _flist_v := flist_push s._flist_v i1 id1 }, id2)
        else none
      | _, _ => none

/-- Modelled from the spec: execution of a route from the top down (section 4.2
step 5): `path` lists the rows to descend into below block `cur`; the result
is the block the descent ends in. -/
def descend (s : buddy_system) (cur : Nat) : List Nat → Option (buddy_system × Nat)
  | [] => some (s, cur)
  | next :: rest =>
    match split_block s cur next with
    | none => none
    | some (s1, c1) => descend s1 c1 rest

/-- Modelled from the spec: `allocate(size)` (section 4.2; its code is in the
absent header).  The route ends at the row chosen on the seed's level, which
for the documented first allocation is row 8 (coefficient 4) for seed 9, "request:
3, result 4" (source line 137).  On success the result is the base pointer of
the granted block and the new state; a failure leaves the state as it was. -/
def buddy_system.allocate (s : buddy_system) (size : Nat) :
    Except alloc_failure (Nat × buddy_system) :=
  let req : Nat := (size + s._align - 1) / s._align
  if s._tbl.root_cof < req then Except.error alloc_failure.SizeTooLarge
  else
    match s._tbl.seed req with
    | none => Except.error alloc_failure.UnsupportedSize
    | some seed =>
      match find_route s._tbl s._flist_v seed with
      | none => Except.error alloc_failure.OutOfMemory
      | some route =>
        match route.reverse with
        | [] => Except.error alloc_failure.OutOfMemory
        | top :: path =>
          match flist_at s._flist_v top with
          | [] => Except.error alloc_failure.OutOfMemory
          | id :: _ =>
            match descend { s with _flist_v := flist_pop s._flist_v top, _route := route } id path with
            | none => Except.error alloc_failure.OutOfMemory
            | some (s1, leaf) =>
              match block_pool.get s1._block_pool leaf with
              | none => Except.error alloc_failure.OutOfMemory
              | some b =>
                Except.ok (b.rgn.ptr,
                  { s1 with
                    _block_pool := block_pool.store s1._block_pool leaf b.mark_in_use
                    _total_allocated_size := s1._total_allocated_size + b.cof * s1._align })

/-- The buddy table documented in the source (lines 72-85) for root 232 and
minimum coefficient 3, row by row. -/
def documented_rows : List buddy_table_entry :=
  [ { level := 0, cof := 232, category := buddy_category.Unique, pattern := buddy_pattern.NA, dist := 0, off := 0 },
    { level := 1, cof := 116, category := buddy_category.Unique, pattern := buddy_pattern.NA, dist := 1, off := 0 },
    { level := 2, cof := 58, category := buddy_category.Unique, pattern := buddy_pattern.NA, dist := 1, off := 0 },
    { level := 3, cof := 29, category := buddy_category.Unique, pattern := buddy_pattern.NA, dist := 1, off := 0 },
    { level := 4, cof := 15, category := buddy_category.Rare, pattern := buddy_pattern.A3B1, dist := 1, off := 0 },
    { level := 4, cof := 14, category := buddy_category.Rare, pattern := buddy_pattern.A3B1, dist := 2, off := 1 },
    { level := 5, cof := 8, category := buddy_category.Rare, pattern := buddy_pattern.A1B3, dist := 2, off := 0 },
    { level := 5, cof := 7, category := buddy_category.Frequent, pattern := buddy_pattern.A1B3, dist := 3, off := 1 },
    { level := 6, cof := 4, category := buddy_category.Frequent, pattern := buddy_pattern.A3B1, dist := 2, off := 0 },
    { level := 6, cof := 3, category := buddy_category.Rare, pattern := buddy_pattern.A3B1, dist := 3, off := 1 } ]

/-- The documented table as a `buddy_table`. -/
def documented_table : buddy_table :=
  { entries := documented_rows, min_cof := 3 }

/-- A region described in alignment units from address 0, placed at address
`base` with units of `align` bytes. -/
def memrgn_t.at_address (base align : Nat) (r : memrgn_t) : memrgn_t :=
  { ptr := base + r.ptr * align, size := r.size * align }

/-- A block whose region is described in alignment units from address 0, placed
at address `base` with units of `align` bytes. -/
def block.at_address (base align : Nat) (b : block) : block :=
  { b with rgn := b.rgn.at_address base align }

/-- The system `s`, described in alignment units from address 0, placed at
address `base` with units of `align` bytes: addresses become
`base + ptr * align` and byte counts are multiplied by `align`; table, free
lists and the links between blocks are the same. -/
def buddy_system.at_address (base align : Nat) (s : buddy_system) : buddy_system :=
  { s with
    _rgn := s._rgn.at_address base align
    _align := s._align * align
    _max_blk_size := s._max_blk_size * align
    _block_pool := s._block_pool.map (Option.map (block.at_address base align))
    _total_allocated_size := s._total_allocated_size * align }

/-- The state right after construction in the documented example (root 232,
minimum 3), in alignment units: the root block alone, in list 0. -/
def example_state_0 : buddy_system :=
  { _rgn := { ptr := 0, size := 232 }
    _align := 1
    _max_blk_size := 232
    _tbl := documented_table
    _block_pool := [some ⟨232, 0, ⟨0, 232⟩, none, none, false, false⟩]
    _flist_v := [[0], [], [], [], [], [], [], [], [], []]
    _route := []
    _total_allocated_size := 0 }

/-- The state after the first allocation of 3 units, in alignment units.  The
blocks are numbered in the order the splits create them; their coefficients,
parents and states are those of the allocation tree drawn in the source
(lines 122-137): `232 → 116 → 58 → 29 → 15 → 7 → 4` is the split path, the
blocks 116, 58, 29, 14, 8 and 3 are free, the block 4 is handed out.  Every
free block is in the list of its table index, as section 4.2 step 5 says; the
vector drawn in lines 125-134 has the blocks 14 and 8 in rows 4 and 7 and is
kept apart, in `documented_state_1`. -/
def example_state_1 : buddy_system :=
  { _rgn := { ptr := 0, size := 232 }
    _align := 1
    _max_blk_size := 232
    _tbl := documented_table
    _block_pool :=
      [ some ⟨232, 0, ⟨0, 232⟩, none, none, false, true⟩,
        some ⟨116, 1, ⟨0, 116⟩, some 2, some 0, false, true⟩,
        some ⟨116, 1, ⟨116, 116⟩, some 1, some 0, false, false⟩,
        some ⟨58, 2, ⟨0, 58⟩, some 4, some 1, false, true⟩,
        some ⟨58, 2, ⟨58, 58⟩, some 3, some 1, false, false⟩,
        some ⟨29, 3, ⟨0, 29⟩, some 6, some 3, false, true⟩,
        some ⟨29, 3, ⟨29, 29⟩, some 5, some 3, false, false⟩,
        some ⟨15, 4, ⟨0, 15⟩, some 8, some 5, false, true⟩,
        some ⟨14, 5, ⟨15, 14⟩, some 7, some 5, false, false⟩,
        some ⟨8, 6, ⟨0, 8⟩, some 10, some 7, false, false⟩,
        some ⟨7, 7, ⟨8, 7⟩, some 9, some 7, false, true⟩,
        some ⟨4, 8, ⟨8, 4⟩, some 12, some 10, true, false⟩,
        some ⟨3, 9, ⟨12, 3⟩, some 11, some 10, false, false⟩ ]
    _flist_v := [[], [2], [4], [6], [], [8], [9], [], [], [12]]
    _route := [8, 7, 4, 3, 2, 1, 0]
    _total_allocated_size := 4 }

/-- The state after the second allocation of 3 units, in alignment units: the
block of coefficient 3 has left list 9 and is in use; nothing else changed. -/
def example_state_2 : buddy_system :=
  { _rgn := { ptr := 0, size := 232 }
    _align := 1
    _max_blk_size := 232
    _tbl := documented_table
    _block_pool :=
      [ some ⟨232, 0, ⟨0, 232⟩, none, none, false, true⟩,
        some ⟨116, 1, ⟨0, 116⟩, some 2, some 0, false, true⟩,
        some ⟨116, 1, ⟨116, 116⟩, some 1, some 0, false, false⟩,
        some ⟨58, 2, ⟨0, 58⟩, some 4, some 1, false, true⟩,
        some ⟨58, 2, ⟨58, 58⟩, some 3, some 1, false, false⟩,
        some ⟨29, 3, ⟨0, 29⟩, some 6, some 3, false, true⟩,
        some ⟨29, 3, ⟨29, 29⟩, some 5, some 3, false, false⟩,
        some ⟨15, 4, ⟨0, 15⟩, some 8, some 5, false, true⟩,
        some ⟨14, 5, ⟨15, 14⟩, some 7, some 5, false, false⟩,
        some ⟨8, 6, ⟨0, 8⟩, some 10, some 7, false, false⟩,
        some ⟨7, 7, ⟨8, 7⟩, some 9, some 7, false, true⟩,
        some ⟨4, 8, ⟨8, 4⟩, some 12, some 10, true, false⟩,
        some ⟨3, 9, ⟨12, 3⟩, some 11, some 10, true, false⟩ ]
    _flist_v := [[], [2], [4], [6], [], [8], [9], [], [], []]
    _route := [9]
    _total_allocated_size := 7 }

/-- Consistency of table, pool and free-list vector, strong enough to be
preserved by every step of allocation and deallocation.  `hole` is the block
that has left its free list and is being split or handed out, if any. -/
structure consistent (t : buddy_table) (pool : List (Option block)) (fl : List (List Nat))
    (hole : Option Nat) : Prop where
  len : fl.length = t.size
  listed : ∀ j id, id ∈ flist_at fl j →
    ∃ b, block_pool.get pool id = some b ∧ b.status = block_status.Free ∧ b.blkidx = j
  nodup : ∀ j, (flist_at fl j).Nodup
  free_listed : ∀ id b, block_pool.get pool id = some b → b.status = block_status.Free →
    hole ≠ some id → id ∈ flist_at fl b.blkidx
  entry : ∀ id b, block_pool.get pool id = some b →
    ∃ e, t.entry b.blkidx = some e ∧ b.cof = e.cof
  parent_split : ∀ id b par, block_pool.get pool id = some b → b.parent = some par →
    ∃ pb, block_pool.get pool par = some pb ∧ pb.status = block_status.Split
  siblings : ∀ x y bx bz p, block_pool.get pool x = some bx → block_pool.get pool y = some bz →
    bx.parent = some p → bz.parent = some p → x = y ∨ bx.pair = some y
  hole_free : ∀ h, hole = some h →
    (∃ b, block_pool.get pool h = some b ∧ b.status = block_status.Free) ∧
    ∀ j, h ∉ flist_at fl j

/-! ## Theorems -/

/-! ### Block pool and free-list vector -/

theorem block_pool.get_eq (pool : List (Option block)) (id : Nat) :
    block_pool.get pool id = (pool[id]?).getD none := by
  simp [block_pool.get, List.getD_eq_getElem?_getD]

theorem block_pool.malloc_le (pool : List (Option block)) :
    block_pool.malloc pool ≤ pool.length :=
  List.findIdx_le_length _

/-- Reading a pool after a store into a slot inside the pool or one past its end. -/
theorem block_pool.get_store (pool : List (Option block)) (id : Nat) (b : block) (j : Nat)
    (h : id ≤ pool.length) :
    block_pool.get (block_pool.store pool id b) j
      = if j = id then some b else block_pool.get pool j := by
  simp only [block_pool.get_eq, block_pool.store]
  by_cases hlt : id < pool.length
  · simp only [hlt, if_true, List.getElem?_set]
    by_cases hj : j = id
    · subst hj; simp [hlt]
    · have : ¬ id = j := fun e => hj e.symm
      simp [hj, this]
  · have hid : id = pool.length := by omega
    subst hid
    simp only [lt_irrefl, if_false, List.getElem?_append]
    by_cases hj : j = pool.length
    · subst hj; simp
    · by_cases hjl : j < pool.length
      · simp [hj, hjl]
      · have h1 : pool.length ≤ j := by omega
        have h2 : ¬ j - pool.length = 0 := by omega
        simp [hj, hjl, List.getElem?_eq_none h1]
        cases hk : j - pool.length with
        | zero => exact absurd hk h2
        | succ k => simp

theorem flist_at_eq (v : List (List Nat)) (i : Nat) : flist_at v i = (v[i]?).getD [] := by
  simp [flist_at, List.getD_eq_getElem?_getD]

theorem flist_at_modify (f : List Nat → List Nat) (v : List (List Nat)) (i j : Nat) :
    flist_at (v.modify f i) j
      = if i = j ∧ j < v.length then f (flist_at v j) else flist_at v j := by
  simp only [flist_at_eq, List.getElem?_modify]
  by_cases hj : j < v.length
  · rw [List.getElem?_eq_getElem hj]
    by_cases hij : i = j <;> simp [hij, hj]
  · rw [List.getElem?_eq_none (by omega)]
    simp [hj]

theorem flist_at_push (v : List (List Nat)) (i id j : Nat) :
    flist_at (flist_push v i id) j
      = if i = j ∧ j < v.length then id :: flist_at v j else flist_at v j :=
  flist_at_modify _ v i j

theorem flist_length_push (v : List (List Nat)) (i id : Nat) :
    (flist_push v i id).length = v.length := List.length_modify _ _ _

/-- The modelled table construction reproduces the table documented in the
source for root 232 and minimum coefficient 3, in every column. -/
theorem table_init_232_3 (align : Nat) :
    buddy_table.init 232 align 3 = some documented_table := by
  have h : table_entries 3 233 0 0 true [] [232] = documented_rows := by decide!
  simp only [buddy_table.init, documented_table, h]
  rfl

/-- The state `init` leaves behind when it completes. -/
theorem buddy_system.init_ok (self : buddy_system) (rgn : memrgn_t) (align min_cof : Nat)
    (tbl : buddy_table) (halign : 0 < align)
    (hassert : is_aligned_address self._rgn.ptr align = true)
    (htbl : buddy_table.init (rgn.size / align) align min_cof = some tbl)
    (hsize : 0 < tbl.size) :
    self.init rgn align min_cof = Except.ok
      { _rgn := rgn
        _align := align
        _max_blk_size := rgn.size / align * align
        _tbl := tbl
        _block_pool := block_pool.store self._block_pool (block_pool.malloc self._block_pool)
          { cof := rgn.size / align, blkidx := 0, rgn := rgn, pair := none, parent := none,
            in_use := false }
        _flist_v := flist_push (_init_free_list_vec tbl.size) 0 (block_pool.malloc self._block_pool)
        _route := self._route
        _total_allocated_size := 0 } := by
  have h0 : align ≠ 0 := Nat.pos_iff_ne_zero.mp halign
  have h1 : tbl.size ≠ 0 := Nat.pos_iff_ne_zero.mp hsize
  simp [buddy_system.init, hassert, h0, htbl, h1]

/-- The seeded free-list vector: the root block alone in list 0. -/
theorem flist_push_init (n id : Nat) (h : 0 < n) :
    flist_push (_init_free_list_vec n) 0 id = [id] :: List.replicate (n - 1) [] := by
  obtain ⟨k, rfl⟩ : ∃ k, n = k + 1 := ⟨n - 1, by omega⟩
  simp [flist_push, _init_free_list_vec, List.replicate_succ, List.modify]

/-- C1: for every region, every `align > 0` and every `min_cof` for which the
table built by `init` has at least one row, `init` (called on an object whose
assertion of line 31 passes) leaves a free-list vector of `N = _tbl.size()`
lists that holds exactly one block in total: list 0 is exactly the root block
and the lists `1 .. N-1` are empty. -/
theorem init_seeds_single_root_block (self : buddy_system) (rgn : memrgn_t) (align min_cof : Nat)
    (tbl : buddy_table) (halign : 0 < align)
    (hassert : is_aligned_address self._rgn.ptr align = true)
    (htbl : buddy_table.init (rgn.size / align) align min_cof = some tbl)
    (hsize : 0 < tbl.size) :
    ∃ s root, self.init rgn align min_cof = Except.ok s ∧
      s._flist_v.length = tbl.size ∧
      s._flist_v = [root] :: List.replicate (tbl.size - 1) [] ∧
      flist_at s._flist_v 0 = [root] ∧
      (∀ i, 1 ≤ i → flist_at s._flist_v i = []) ∧
      (s._flist_v.map List.length).sum = 1 ∧
      block_pool.get s._block_pool root = some
        { cof := rgn.size / align, blkidx := 0, rgn := rgn, pair := none, parent := none,
          in_use := false } := by
  refine ⟨_, block_pool.malloc self._block_pool,
    buddy_system.init_ok self rgn align min_cof tbl halign hassert htbl hsize, ?_, ?_, ?_, ?_, ?_, ?_⟩
  · simp [flist_length_push, _init_free_list_vec]
  · exact flist_push_init _ _ hsize
  · simp [flist_push_init _ _ hsize, flist_at]
  · intro i hi
    obtain ⟨k, rfl⟩ : ∃ k, i = k + 1 := ⟨i - 1, by omega⟩
    simp only [flist_push_init _ _ hsize, flist_at_eq, List.getElem?_cons_succ,
      List.getElem?_replicate]
    split <;> rfl
  · simp [flist_push_init _ _ hsize]
  · simp [block_pool.get_store _ _ _ _ (block_pool.malloc_le _)]

/-- C1, at the documented example: region of 232 units of 8 bytes, minimum 3,
on a default-constructed object. -/
theorem init_seeds_single_root_block_witness :
    ∃ s root, buddy_system.default.init { ptr := 0, size := 1856 } 8 3 = Except.ok s ∧
      s._flist_v.length = documented_table.size ∧
      s._flist_v = [root] :: List.replicate (documented_table.size - 1) [] ∧
      flist_at s._flist_v 0 = [root] ∧
      (∀ i, 1 ≤ i → flist_at s._flist_v i = []) ∧
      (s._flist_v.map List.length).sum = 1 ∧
      block_pool.get s._block_pool root = some
        { cof := 1856 / 8, blkidx := 0, rgn := { ptr := 0, size := 1856 }, pair := none,
          parent := none, in_use := false } :=
  init_seeds_single_root_block buddy_system.default { ptr := 0, size := 1856 } 8 3
    documented_table (by decide) (by decide) (table_init_232_3 8) (by decide)

/-- C2: for every region and every `align > 0`, the root block created by
`init` is Free (`in_use = false`), has no parent and no pair, has table index 0,
covers exactly the region passed in, and has coefficient `rgn.size / align`
(truncating division). -/
theorem init_root_block (self : buddy_system) (rgn : memrgn_t) (align min_cof : Nat)
    (tbl : buddy_table) (halign : 0 < align)
    (hassert : is_aligned_address self._rgn.ptr align = true)
    (htbl : buddy_table.init (rgn.size / align) align min_cof = some tbl)
    (hsize : 0 < tbl.size) :
    ∃ s root b, self.init rgn align min_cof = Except.ok s ∧
      flist_at s._flist_v 0 = [root] ∧
      block_pool.get s._block_pool root = some b ∧
      b.in_use = false ∧ b.status = block_status.Free ∧
      b.parent = none ∧ b.pair = none ∧ b.blkidx = 0 ∧
      b.rgn = rgn ∧ b.cof = rgn.size / align := by
  refine ⟨_, block_pool.malloc self._block_pool,
    ({ cof := rgn.size / align, blkidx := 0, rgn := rgn, pair := none, parent := none, in_use := false } : block),
    buddy_system.init_ok self rgn align min_cof tbl halign hassert htbl hsize, ?_, ?_,
    rfl, rfl, rfl, rfl, rfl, rfl, rfl⟩
  · simp [flist_push_init _ _ hsize, flist_at]
  · simp [block_pool.get_store _ _ _ _ (block_pool.malloc_le _)]

/-- C2, at a region of 1861 bytes with alignment 8: the coefficient is the
truncated quotient 232. -/
theorem init_root_block_witness :
    ∃ s root b, buddy_system.default.init { ptr := 0, size := 1861 } 8 3 = Except.ok s ∧
      flist_at s._flist_v 0 = [root] ∧
      block_pool.get s._block_pool root = some b ∧
      b.in_use = false ∧ b.status = block_status.Free ∧
      b.parent = none ∧ b.pair = none ∧ b.blkidx = 0 ∧
      b.rgn = { ptr := 0, size := 1861 } ∧ b.cof = 1861 / 8 :=
  init_root_block buddy_system.default { ptr := 0, size := 1861 } 8 3
    documented_table (by decide) (by decide) (table_init_232_3 8) (by decide)

/-- C3 (the source departs from the claim): the constructor is given a base
pointer 4 that is not a multiple of the alignment 8, and `init` completes all
the same: the assertion of line 31 reads the member `_rgn`, which the default
constructor has just zeroed, not the argument `rgn`. -/
theorem construct_accepts_misaligned_base :
    is_aligned_address 4 8 = false ∧
    (buddy_system.construct { ptr := 4, size := 1856 } 8 3).toOption.map
        (fun s => (s._rgn, s._flist_v, s._block_pool))
      = some ({ ptr := 4, size := 1856 },
          [[0], [], [], [], [], [], [], [], [], []],
          [some { cof := 232, blkidx := 0, rgn := { ptr := 4, size := 1856 }, pair := none,
                  parent := none, in_use := false }]) := by
  decide!

/-- C4: `init` does not complete, and so creates no root block and seeds no
free list, whenever `min_cof < 1` or `min_cof > rgn.size / align`; when the
assertion passes and `align > 0` the failure is the construction error of the
table. -/
theorem init_rejects_bad_min_cof (self : buddy_system) (rgn : memrgn_t) (align min_cof : Nat)
    (h : min_cof < 1 ∨ rgn.size / align < min_cof) :
    (∃ e, self.init rgn align min_cof = Except.error e) ∧
    (0 < align → is_aligned_address self._rgn.ptr align = true →
      self.init rgn align min_cof = Except.error init_failure.construction_error) := by
  have ht : buddy_table.init (rgn.size / align) align min_cof = none := by
    unfold buddy_table.init
    rw [if_pos h]
  constructor
  · unfold buddy_system.init
    split
    · exact ⟨_, rfl⟩
    · split
      · exact ⟨_, rfl⟩
      · simp only [ht]
        exact ⟨_, rfl⟩
  · intro halign hassert
    have h0 : align ≠ 0 := Nat.pos_iff_ne_zero.mp halign
    simp [buddy_system.init, hassert, h0, ht]

/-- C4, at a region of two units with minimum coefficient 3. -/
theorem init_rejects_bad_min_cof_witness :
    (∃ e, buddy_system.default.init { ptr := 0, size := 16 } 8 3 = Except.error e) ∧
    (0 < 8 → is_aligned_address buddy_system.default._rgn.ptr 8 = true →
      buddy_system.default.init { ptr := 0, size := 16 } 8 3
        = Except.error init_failure.construction_error) :=
  init_rejects_bad_min_cof buddy_system.default { ptr := 0, size := 16 } 8 3
    (Or.inr (by decide))

/-- C6 as stated fails: a region of 10 bytes with alignment 4 gets a root block
of coefficient 2 that covers all 10 bytes, not `2 * 4 = 8`. -/
theorem root_block_size_counterexample :
    (buddy_system.construct { ptr := 0, size := 10 } 4 1).toOption.map
        (fun s => (flist_at s._flist_v 0).map fun id =>
          (block_pool.get s._block_pool id).map fun b => (b.rgn.size, b.cof, b.cof * s._align))
      = some [some (10, 2, 8)] := by
  decide!

/-- C6, amended: the root block created by `init` covers the whole region, so
its byte length lies between `cof * align` and `cof * align + align - 1`; it
equals `cof * align` exactly when `align` divides `rgn.size`. -/
theorem init_root_block_size (self : buddy_system) (rgn : memrgn_t) (align min_cof : Nat)
    (tbl : buddy_table) (halign : 0 < align)
    (hassert : is_aligned_address self._rgn.ptr align = true)
    (htbl : buddy_table.init (rgn.size / align) align min_cof = some tbl)
    (hsize : 0 < tbl.size) :
    ∃ s root b, self.init rgn align min_cof = Except.ok s ∧
      flist_at s._flist_v 0 = [root] ∧
      block_pool.get s._block_pool root = some b ∧
      b.rgn.size = rgn.size ∧
      b.cof * s._align ≤ b.rgn.size ∧
      b.rgn.size < b.cof * s._align + s._align ∧
      (b.rgn.size = b.cof * s._align ↔ align ∣ rgn.size) := by
  refine ⟨_, block_pool.malloc self._block_pool,
    ({ cof := rgn.size / align, blkidx := 0, rgn := rgn, pair := none, parent := none, in_use := false } : block),
    buddy_system.init_ok self rgn align min_cof tbl halign hassert htbl hsize, ?_, ?_,
    rfl, ?_, ?_, ?_⟩
  · simp [flist_push_init _ _ hsize, flist_at]
  · simp [block_pool.get_store _ _ _ _ (block_pool.malloc_le _)]
  · exact Nat.div_mul_le_self _ _
  · show rgn.size < rgn.size / align * align + align
    have := Nat.lt_mul_div_succ rgn.size halign
    rw [Nat.mul_add, Nat.mul_one, Nat.mul_comm] at this
    exact this
  · show rgn.size = rgn.size / align * align ↔ align ∣ rgn.size
    rw [Nat.dvd_iff_div_mul_eq]
    exact eq_comm

/-- C6 amended, at a region of 10 bytes with alignment 4. -/
theorem init_root_block_size_witness :
    ∃ s root b, buddy_system.default.init { ptr := 0, size := 10 } 4 1 = Except.ok s ∧
      flist_at s._flist_v 0 = [root] ∧
      block_pool.get s._block_pool root = some b ∧
      b.rgn.size = 10 ∧
      b.cof * s._align ≤ b.rgn.size ∧
      b.rgn.size < b.cof * s._align + s._align ∧
      (b.rgn.size = b.cof * s._align ↔ 4 ∣ 10) :=
  init_root_block_size buddy_system.default { ptr := 0, size := 10 } 4 1
    { entries := table_entries 1 3 0 0 true [] [2], min_cof := 1 }
    (by decide) (by decide) (by decide!) (by decide!)

/-- C10: the maximum block size stored by `init`, `root_cof * align` with
`root_cof = rgn.size / align`, is the largest multiple of `align` not exceeding
`rgn.size`; it equals `rgn.size` exactly when `align` divides `rgn.size`; and
`init` resets the total-allocated-size counter to 0. -/
theorem init_max_blk_size (self : buddy_system) (rgn : memrgn_t) (align min_cof : Nat)
    (tbl : buddy_table) (halign : 0 < align)
    (hassert : is_aligned_address self._rgn.ptr align = true)
    (htbl : buddy_table.init (rgn.size / align) align min_cof = some tbl)
    (hsize : 0 < tbl.size) :
    ∃ s, self.init rgn align min_cof = Except.ok s ∧
      s._max_blk_size = rgn.size / align * align ∧
      align ∣ s._max_blk_size ∧
      s._max_blk_size ≤ rgn.size ∧
      rgn.size < s._max_blk_size + align ∧
      (∀ k, k * align ≤ rgn.size → k * align ≤ s._max_blk_size) ∧
      (s._max_blk_size = rgn.size ↔ align ∣ rgn.size) ∧
      s._total_allocated_size = 0 := by
  refine ⟨_, buddy_system.init_ok self rgn align min_cof tbl halign hassert htbl hsize,
    rfl, ?_, ?_, ?_, ?_, ?_, rfl⟩
  · exact Dvd.intro_left _ rfl
  · exact Nat.div_mul_le_self _ _
  · show rgn.size < rgn.size / align * align + align
    have := Nat.lt_mul_div_succ rgn.size halign
    rw [Nat.mul_add, Nat.mul_one, Nat.mul_comm] at this
    exact this
  · intro k hk
    show k * align ≤ rgn.size / align * align
    exact Nat.mul_le_mul_right _ ((Nat.le_div_iff_mul_le halign).mpr hk)
  · show rgn.size / align * align = rgn.size ↔ align ∣ rgn.size
    rw [Nat.dvd_iff_div_mul_eq]

/-- C10, at a region of 1861 bytes with alignment 8: the stored maximum is 1856. -/
theorem init_max_blk_size_witness :
    ∃ s, buddy_system.default.init { ptr := 0, size := 1861 } 8 3 = Except.ok s ∧
      s._max_blk_size = 1861 / 8 * 8 ∧
      8 ∣ s._max_blk_size ∧
      s._max_blk_size ≤ 1861 ∧
      1861 < s._max_blk_size + 8 ∧
      (∀ k, k * 8 ≤ 1861 → k * 8 ≤ s._max_blk_size) ∧
      (s._max_blk_size = 1861 ↔ 8 ∣ 1861) ∧
      s._total_allocated_size = 0 :=
  init_max_blk_size buddy_system.default { ptr := 0, size := 1861 } 8 3
    documented_table (by decide) (by decide) (table_init_232_3 8) (by decide)

/-! ### The coefficient tree and the buddy table -/

/-- A quotient `X / m` with `n ≤ X < n + m` is the floor or the ceiling of `n / m`. -/
theorem div_floor_or_ceil (n m X : Nat) (hm : 0 < m) (h1 : n ≤ X) (h2 : X < n + m) :
    X / m = n / m ∨ X / m = (n + m - 1) / m := by
  have a1 : n / m ≤ X / m := Nat.div_le_div_right h1
  have a2 : X / m ≤ (n + m - 1) / m := Nat.div_le_div_right (by omega)
  have a3 : (n + m - 1) / m ≤ (n + m) / m := Nat.div_le_div_right (by omega)
  have a4 : (n + m) / m = n / m + 1 := Nat.add_div_right n hm
  omega

/-- The ceiling exceeds the floor by at most one. -/
theorem ceil_le_floor_succ (n m : Nat) (hm : 0 < m) : (n + m - 1) / m ≤ n / m + 1 := by
  have a3 : (n + m - 1) / m ≤ (n + m) / m := Nat.div_le_div_right (by omega)
  have a4 : (n + m) / m = n / m + 1 := Nat.add_div_right n hm
  omega

/-- Every node at depth `d` is a quotient `X / 2^d` with `n ≤ X < n + 2^d`. -/
theorem tree_level_quotient (n : Nat) :
    ∀ d, ∀ c ∈ tree_level n d, ∃ X, n ≤ X ∧ X < n + 2 ^ d ∧ c = X / 2 ^ d := by
  intro d
  induction d with
  | zero =>
    intro c hc
    simp only [tree_level, List.mem_singleton] at hc
    exact ⟨n, le_refl _, by simp, by simp [hc]⟩
  | succ d ih =>
    intro c hc
    simp only [tree_level, List.mem_flatMap] at hc
    obtain ⟨a, ha, hca⟩ := hc
    obtain ⟨X, hX1, hX2, rfl⟩ := ih a ha
    have hm : 0 < 2 ^ d := Nat.two_pow_pos d
    simp only [split_cof, List.mem_cons, List.mem_singleton, List.not_mem_nil, or_false] at hca
    rcases hca with h | h
    · refine ⟨X + 2 ^ d, by omega, by rw [pow_succ]; omega, ?_⟩
      rw [h, ← Nat.add_div_right X hm, Nat.div_div_eq_div_mul, pow_succ]
    · refine ⟨X, hX1, by rw [pow_succ]; omega, ?_⟩
      rw [h, Nat.div_div_eq_div_mul, pow_succ]

/-- Every node at depth `d` has coefficient `floor(n / 2^d)` or `ceil(n / 2^d)`. -/
theorem tree_level_mem (n d c : Nat) (hc : c ∈ tree_level n d) :
    c = n / 2 ^ d ∨ c = (n + 2 ^ d - 1) / 2 ^ d := by
  obtain ⟨X, h1, h2, rfl⟩ := tree_level_quotient n d c hc
  exact div_floor_or_ceil n (2 ^ d) X (Nat.two_pow_pos d) h1 h2

/-- A duplicate-free list of nodes of one depth has at most two members. -/
theorem level_length_le_two (n d : Nat) (lvl : List Nat) (hnd : lvl.Nodup)
    (hsub : ∀ c ∈ lvl, c ∈ tree_level n d) : lvl.length ≤ 2 := by
  have hs : lvl ⊆ [n / 2 ^ d, (n + 2 ^ d - 1) / 2 ^ d] := by
    intro c hc
    rcases tree_level_mem n d c (hsub c hc) with h | h <;> simp [h]
  exact (List.Nodup.subperm hnd hs).length_le

theorem level_entries_level {lev pl : Nat} {lin : Bool} {win lvl : List Nat}
    {e : buddy_table_entry} (h : e ∈ level_entries lev pl lin win lvl) : e.level = lev := by
  simp only [level_entries, List.mem_map] at h
  obtain ⟨p, _, rfl⟩ := h
  rfl

theorem level_entries_cofs (lev pl : Nat) (lin : Bool) (win lvl : List Nat) :
    (level_entries lev pl lin win lvl).map (fun e => e.cof) = lvl := by
  simp only [level_entries, List.map_map]
  exact List.enum_map_snd lvl

theorem level_entries_cof_mem {lev pl : Nat} {lin : Bool} {win lvl : List Nat}
    {e : buddy_table_entry} (h : e ∈ level_entries lev pl lin win lvl) : e.cof ∈ lvl := by
  have := List.mem_map_of_mem (fun e => e.cof) h
  rwa [level_entries_cofs] at this

theorem level_entries_exists (lev pl : Nat) (lin : Bool) (win lvl : List Nat) (c : Nat)
    (hc : c ∈ lvl) : ∃ e ∈ level_entries lev pl lin win lvl, e.level = lev ∧ e.cof = c := by
  rw [← level_entries_cofs lev pl lin win lvl, List.mem_map] at hc
  obtain ⟨e, he, hce⟩ := hc
  exact ⟨e, he, level_entries_level he, hce⟩

theorem level_entries_length (lev pl : Nat) (lin : Bool) (win lvl : List Nat) :
    (level_entries lev pl lin win lvl).length = lvl.length := by
  simp [level_entries, List.enum_length]

/-- The next table level consists of children of split members of the level. -/
theorem next_level_mem {m : Nat} {lvl : List Nat} {c : Nat} (h : c ∈ next_level m lvl) :
    ∃ a ∈ lvl, splittable m a = true ∧ c ∈ split_cof a := by
  simp only [next_level, level_window, List.mem_dedup, List.mem_flatMap, List.mem_filter] at h
  obtain ⟨a, ⟨ha, hs⟩, hc⟩ := h
  exact ⟨a, ha, hs, hc⟩

theorem mem_next_level {m : Nat} {lvl : List Nat} {a c : Nat} (ha : a ∈ lvl)
    (hs : splittable m a = true) (hc : c ∈ split_cof a) : c ∈ next_level m lvl := by
  simp only [next_level, level_window, List.mem_dedup, List.mem_flatMap, List.mem_filter]
  exact ⟨a, ⟨ha, hs⟩, hc⟩

theorem table_entries_succ (m fuel lev pl : Nat) (lin : Bool) (win lvl : List Nat)
    (h : lvl ≠ []) :
    table_entries m (fuel + 1) lev pl lin win lvl
      = level_entries lev pl (lin && decide (lvl.length = 1)) win lvl ++
        table_entries m fuel (lev + 1) lvl.length (lin && decide (lvl.length = 1))
          (level_window m lvl) (next_level m lvl) := by
  simp [table_entries, h]

/-- Rows produced from level `lev` on have level at least `lev`, and their
coefficient is a node of the coefficient tree at their level. -/
theorem table_entries_tree (m n : Nat) :
    ∀ fuel lev pl lin win lvl d, (∀ c ∈ lvl, c ∈ tree_level n d) →
      ∀ e ∈ table_entries m fuel lev pl lin win lvl,
        lev ≤ e.level ∧ e.cof ∈ tree_level n (d + (e.level - lev)) := by
  intro fuel
  induction fuel with
  | zero => intro lev pl lin win lvl d _ e he; simp [table_entries] at he
  | succ fuel ih =>
    intro lev pl lin win lvl d hsub e he
    by_cases hl : lvl = []
    · simp [table_entries, hl] at he
    · rw [table_entries_succ _ _ _ _ _ _ _ hl, List.mem_append] at he
      rcases he with he | he
      · have h1 := level_entries_level he
        have h2 := level_entries_cof_mem he
        rw [h1]
        exact ⟨le_refl _, by simpa using hsub _ h2⟩
      · have hsub' : ∀ c ∈ next_level m lvl, c ∈ tree_level n (d + 1) := by
          intro c hc
          obtain ⟨a, ha, _, hca⟩ := next_level_mem hc
          simp only [tree_level, List.mem_flatMap]
          exact ⟨a, hsub a ha, hca⟩
        obtain ⟨h1, h2⟩ := ih (lev + 1) _ _ _ _ (d + 1) hsub' e he
        refine ⟨by omega, ?_⟩
        have : d + 1 + (e.level - (lev + 1)) = d + (e.level - lev) := by omega
        rwa [this] at h2

/-- A table holds at most two rows per level. -/
theorem table_entries_per_level (m n : Nat) :
    ∀ fuel lev pl lin win lvl d, lvl.Nodup → (∀ c ∈ lvl, c ∈ tree_level n d) →
      ∀ k, ((table_entries m fuel lev pl lin win lvl).filter
              fun e => decide (e.level = k)).length ≤ 2 := by
  intro fuel
  induction fuel with
  | zero => intro lev pl lin win lvl d _ _ k; simp [table_entries]
  | succ fuel ih =>
    intro lev pl lin win lvl d hnd hsub k
    by_cases hl : lvl = []
    · simp [table_entries, hl]
    · have hsub' : ∀ c ∈ next_level m lvl, c ∈ tree_level n (d + 1) := by
        intro c hc
        obtain ⟨a, ha, _, hca⟩ := next_level_mem hc
        simp only [tree_level, List.mem_flatMap]
        exact ⟨a, hsub a ha, hca⟩
      rw [table_entries_succ _ _ _ _ _ _ _ hl, List.filter_append, List.length_append]
      by_cases hk : k = lev
      · have hB : (table_entries m fuel (lev + 1) lvl.length (lin && decide (lvl.length = 1))
            (level_window m lvl) (next_level m lvl)).filter (fun e => decide (e.level = k)) = [] := by
          rw [List.filter_eq_nil_iff]
          intro e he
          have := (table_entries_tree m n fuel (lev + 1) _ _ _ _ (d + 1) hsub' e he).1
          simp only [decide_eq_true_eq]
          omega
        rw [hB, List.length_nil, Nat.add_zero]
        calc _ ≤ (level_entries lev pl (lin && decide (lvl.length = 1)) win lvl).length :=
              List.length_filter_le _ _
          _ = lvl.length := level_entries_length _ _ _ _ _
          _ ≤ 2 := level_length_le_two n d lvl hnd hsub
      · have hA : (level_entries lev pl (lin && decide (lvl.length = 1)) win lvl).filter
            (fun e => decide (e.level = k)) = [] := by
          rw [List.filter_eq_nil_iff]
          intro e he
          have := level_entries_level he
          simp only [decide_eq_true_eq]
          omega
        rw [hA, List.length_nil, Nat.zero_add]
        exact ih (lev + 1) _ _ _ _ (d + 1) (List.nodup_dedup _) hsub' k

/-- C9: every node at depth `d` of the split tree of a root coefficient `n` has
coefficient `floor(n / 2^d)` or `ceil(n / 2^d)`; the two values differ by at
most one, a level carries at most two distinct coefficients, and a table built
for `n` holds at most two rows per level, each a node of the tree at its
level. -/
theorem tree_level_two_values (n d : Nat) :
    (∀ c ∈ tree_level n d, c = n / 2 ^ d ∨ c = (n + 2 ^ d - 1) / 2 ^ d) ∧
    (n + 2 ^ d - 1) / 2 ^ d ≤ n / 2 ^ d + 1 ∧
    (∀ a ∈ tree_level n d, ∀ b ∈ tree_level n d, a ≤ b + 1) ∧
    (tree_level n d).dedup.length ≤ 2 ∧
    (∀ align min_cof tbl, buddy_table.init n align min_cof = some tbl →
      ((tbl.entries.filter fun e => decide (e.level = d)).length ≤ 2 ∧
        ∀ e ∈ tbl.entries, e.level = d →
          e.cof = n / 2 ^ d ∨ e.cof = (n + 2 ^ d - 1) / 2 ^ d)) := by
  have hm : 0 < 2 ^ d := Nat.two_pow_pos d
  have hc := ceil_le_floor_succ n (2 ^ d) hm
  have hf : n / 2 ^ d ≤ (n + 2 ^ d - 1) / 2 ^ d := Nat.div_le_div_right (by omega)
  refine ⟨tree_level_mem n d, hc, ?_, ?_, ?_⟩
  · intro a ha b hb
    rcases tree_level_mem n d a ha with h1 | h1 <;>
      rcases tree_level_mem n d b hb with h2 | h2 <;> rw [h1, h2]
    · exact Nat.le_succ _
    · exact le_trans hf (Nat.le_succ _)
    · exact hc
    · exact Nat.le_succ _
  · exact level_length_le_two n d _ (List.nodup_dedup _) (fun c hc => List.mem_dedup.mp hc)
  · intro align min_cof tbl htbl
    unfold buddy_table.init at htbl
    split at htbl
    · exact absurd htbl (by simp)
    · injection htbl with htbl
      subst htbl
      have hroot : ∀ c ∈ [n], c ∈ tree_level n 0 := by
        intro c hc
        simpa [tree_level] using hc
      refine ⟨table_entries_per_level min_cof n _ 0 0 true [] [n] 0 (by simp) hroot d, ?_⟩
      intro e he hd
      have := (table_entries_tree min_cof n _ 0 0 true [] [n] 0 hroot e he).2
      simp only [Nat.zero_add, Nat.sub_zero, hd] at this
      exact tree_level_mem n d _ this

/-- C9, at the documented tree: depth 5 below root 232 carries the values 7 and 8. -/
theorem tree_level_two_values_witness :
    (∀ c ∈ tree_level 232 5, c = 232 / 2 ^ 5 ∨ c = (232 + 2 ^ 5 - 1) / 2 ^ 5) ∧
    (232 + 2 ^ 5 - 1) / 2 ^ 5 ≤ 232 / 2 ^ 5 + 1 ∧
    (∀ a ∈ tree_level 232 5, ∀ b ∈ tree_level 232 5, a ≤ b + 1) ∧
    (tree_level 232 5).dedup.length ≤ 2 ∧
    (∀ align min_cof tbl, buddy_table.init 232 align min_cof = some tbl →
      ((tbl.entries.filter fun e => decide (e.level = 5)).length ≤ 2 ∧
        ∀ e ∈ tbl.entries, e.level = 5 →
          e.cof = 232 / 2 ^ 5 ∨ e.cof = (232 + 2 ^ 5 - 1) / 2 ^ 5)) :=
  tree_level_two_values 232 5

theorem splittable_iff (m c : Nat) : splittable m c = true ↔ m ≤ c / 2 := by
  simp [splittable]

/-- The table is complete: with enough fuel, both children of every split row
have a row one level down. -/
theorem table_entries_children (m : Nat) (hm : 1 ≤ m) :
    ∀ fuel lev pl lin win lvl, (∀ c ∈ lvl, c ≤ fuel) →
      ∀ e ∈ table_entries m (fuel + 1) lev pl lin win lvl, splittable m e.cof = true →
        ∀ c ∈ split_cof e.cof,
          ∃ e' ∈ table_entries m (fuel + 1) lev pl lin win lvl,
            e'.level = e.level + 1 ∧ e'.cof = c := by
  intro fuel
  induction fuel with
  | zero =>
    intro lev pl lin win lvl hfuel e he hs c _
    exfalso
    by_cases hl : lvl = []
    · simp [table_entries, hl] at he
    · rw [table_entries_succ _ _ _ _ _ _ _ hl] at he
      simp only [table_entries, List.append_nil] at he
      have h0 := hfuel _ (level_entries_cof_mem he)
      rw [splittable_iff] at hs
      have : e.cof = 0 := by omega
      rw [this] at hs
      omega
  | succ fuel ih =>
    intro lev pl lin win lvl hfuel e he hs c hc
    by_cases hl : lvl = []
    · simp [table_entries, hl] at he
    · have hnext : ∀ c' ∈ next_level m lvl, c' ≤ fuel := by
        intro c' hc'
        obtain ⟨a, ha, has, hca⟩ := next_level_mem hc'
        have h1 : (a : Nat) ≤ fuel + 1 := hfuel a ha
        rw [splittable_iff] at has
        simp only [split_cof, List.mem_cons, List.mem_singleton, List.not_mem_nil,
          or_false] at hca
        show (c' : Nat) ≤ fuel
        have h3 : (c' : Nat) = (a + 1) / 2 ∨ (c' : Nat) = a / 2 := hca
        omega
      rw [table_entries_succ _ _ _ _ _ _ _ hl] at he ⊢
      rw [List.mem_append] at he
      rcases he with he | he
      · have h1 := level_entries_level he
        have h2 := level_entries_cof_mem he
        have hcn : c ∈ next_level m lvl := mem_next_level h2 hs hc
        have hne : next_level m lvl ≠ [] := List.ne_nil_of_mem hcn
        obtain ⟨e', he', hl', hc'⟩ := level_entries_exists (lev + 1) lvl.length
          ((lin && decide (lvl.length = 1)) && decide ((next_level m lvl).length = 1))
          (level_window m lvl) (next_level m lvl) c hcn
        refine ⟨e', ?_, by rw [hl', h1], hc'⟩
        rw [List.mem_append]
        right
        rw [table_entries_succ _ _ _ _ _ _ _ hne, List.mem_append]
        exact Or.inl he'
      · obtain ⟨e', he', h'⟩ := ih (lev + 1) _ _ _ _ hnext e he hs c hc
        exact ⟨e', List.mem_append.mpr (Or.inr he'), h'⟩

theorem buddy_table.entry_mem {t : buddy_table} {i : Nat} {e : buddy_table_entry}
    (h : t.entry i = some e) : e ∈ t.entries := by
  unfold buddy_table.entry at h
  exact List.getElem?_mem h

theorem buddy_table.entry_lt_size {t : buddy_table} {i : Nat} {e : buddy_table_entry}
    (h : t.entry i = some e) : i < t.size := by
  unfold buddy_table.entry at h
  unfold buddy_table.size
  by_contra hn
  rw [List.getElem?_eq_none (by omega)] at h
  exact absurd h (by simp)

/-- An index is found whenever the table has a row with the level and coefficient. -/
theorem buddy_table.index_of_exists {t : buddy_table} {lev c : Nat}
    (h : ∃ e ∈ t.entries, e.level = lev ∧ e.cof = c) : ∃ i, t.index_of lev c = some i := by
  obtain ⟨e, he, h1, h2⟩ := h
  have hlt : t.entries.findIdx (fun e => decide (e.level = lev) && decide (e.cof = c))
      < t.entries.length :=
    List.findIdx_lt_length.mpr ⟨e, he, by simp [h1, h2]⟩
  refine ⟨t.entries.findIdx (fun e => decide (e.level = lev) && decide (e.cof = c)), ?_⟩
  simp only [buddy_table.index_of, hlt, if_true]

/-- The rows of a built table, and its minimum coefficient. -/
theorem buddy_table.init_some {root_cof align min_cof : Nat} {tbl : buddy_table}
    (h : buddy_table.init root_cof align min_cof = some tbl) :
    1 ≤ min_cof ∧ min_cof ≤ root_cof ∧ tbl.min_cof = min_cof ∧
      tbl.entries = table_entries min_cof (root_cof + 1) 0 0 true [] [root_cof] := by
  unfold buddy_table.init at h
  split at h
  · exact absurd h (by simp)
  · rename_i hc
    injection h with h
    subst h
    simp only [not_or, not_lt] at hc
    exact ⟨hc.1, hc.2, rfl, rfl⟩

/-- In a built table every split row has children. -/
theorem buddy_table.children_of_splittable {root_cof align min_cof : Nat} {tbl : buddy_table}
    (h : buddy_table.init root_cof align min_cof = some tbl) {i : Nat} {e : buddy_table_entry}
    (he : tbl.entry i = some e) (hs : splittable min_cof e.cof = true) :
    ∃ i1 i2, tbl.children i = some (i1, i2) := by
  obtain ⟨hm, _, hmin, hent⟩ := buddy_table.init_some h
  have hmem : e ∈ table_entries min_cof (root_cof + 1) 0 0 true [] [root_cof] := by
    rw [← hent]
    exact buddy_table.entry_mem he
  have hcomp := table_entries_children min_cof hm root_cof 0 0 true [] [root_cof]
    (by intro c hc; simp only [List.mem_singleton] at hc; omega) e hmem hs
  obtain ⟨e1, he1, hl1, hc1⟩ := hcomp ((e.cof + 1) / 2) (by simp [split_cof])
  obtain ⟨e2, he2, hl2, hc2⟩ := hcomp (e.cof / 2) (by simp [split_cof])
  rw [← hent] at he1 he2
  obtain ⟨i1, hi1⟩ := buddy_table.index_of_exists (t := tbl) ⟨e1, he1, hl1, hc1⟩
  obtain ⟨i2, hi2⟩ := buddy_table.index_of_exists (t := tbl) ⟨e2, he2, hl2, hc2⟩
  exact ⟨i1, i2, by simp [buddy_table.children, he, hmin, hs, hi1, hi2]⟩

theorem block.status_mark_free (b : block) : b.mark_free.status = block_status.Free := rfl

theorem block.status_mark_split (b : block) : b.mark_split.status = block_status.Split := rfl

theorem mem_flist_at_push {fl : List (List Nat)} {i id j x : Nat} :
    x ∈ flist_at (flist_push fl i id) j ↔
      (i = j ∧ j < fl.length ∧ x = id) ∨ x ∈ flist_at fl j := by
  rw [flist_at_push]
  split
  · rename_i hc
    rw [List.mem_cons]
    constructor
    · rintro (e | e)
      · exact Or.inl ⟨hc.1, hc.2, e⟩
      · exact Or.inr e
    · rintro (⟨_, _, e⟩ | e)
      · exact Or.inl e
      · exact Or.inr e
  · rename_i hc
    constructor
    · exact fun e => Or.inr e
    · rintro (⟨e1, e2, _⟩ | e)
      · exact absurd ⟨e1, e2⟩ hc
      · exact e

/-- One split keeps the state consistent: the hole `cur` becomes Split, the
child `sib` enters the free list of its table index and the child `kid` is the
new hole. -/
theorem consistent.split {t : buddy_table} {pool pool' : List (Option block)}
    {fl : List (List Nat)} {cur kid sib ioff : Nat} {b : block} (bon boff : block)
    (h : consistent t pool fl (some cur)) (hcur : block_pool.get pool cur = some b)
    (hg : ∀ j, block_pool.get pool' j =
      if j = cur then some b.mark_split else if j = kid then some bon
      else if j = sib then some boff else block_pool.get pool j)
    (hon : block_pool.get pool kid = none) (hoff : block_pool.get pool sib = none)
    (hne : kid ≠ sib)
    (hon_par : bon.parent = some cur) (hon_pair : bon.pair = some sib)
    (hon_free : bon.status = block_status.Free)
    (hon_entry : ∃ e, t.entry bon.blkidx = some e ∧ bon.cof = e.cof)
    (hoff_par : boff.parent = some cur) (hoff_pair : boff.pair = some kid)
    (hoff_free : boff.status = block_status.Free) (hoff_idx : boff.blkidx = ioff)
    (hoff_entry : ∃ e, t.entry ioff = some e ∧ boff.cof = e.cof) :
    consistent t pool' (flist_push fl ioff sib) (some kid) := by
  obtain ⟨⟨b0, hb0, hbfree⟩, hnot⟩ := h.hole_free cur rfl
  rw [hcur] at hb0
  injection hb0 with hb0
  subst hb0
  have hcon : cur ≠ kid := by
    intro e
    rw [e, hon] at hcur
    exact absurd hcur (by simp)
  have hcoff : cur ≠ sib := by
    intro e
    rw [e, hoff] at hcur
    exact absurd hcur (by simp)
  have hioff : ioff < fl.length := by
    obtain ⟨e, he, _⟩ := hoff_entry
    rw [h.len]
    exact buddy_table.entry_lt_size he
  have hlive_ne : ∀ x bx, block_pool.get pool x = some bx → x ≠ kid ∧ x ≠ sib := by
    intro x bx hx
    constructor
    · intro e
      rw [e, hon] at hx
      exact absurd hx (by simp)
    · intro e
      rw [e, hoff] at hx
      exact absurd hx (by simp)
  have hnopar : ∀ x bx, block_pool.get pool x = some bx → bx.parent ≠ some cur := by
    intro x bx hx hp
    obtain ⟨pb, hpb, hs⟩ := h.parent_split x bx cur hx hp
    rw [hcur] at hpb
    injection hpb with hpb
    subst hpb
    rw [hbfree] at hs
    exact absurd hs (by decide)
  have hgcur : block_pool.get pool' cur = some b.mark_split := by rw [hg, if_pos rfl]
  have hgon : block_pool.get pool' kid = some bon := by
    rw [hg, if_neg (fun e => hcon e.symm), if_pos rfl]
  have hgoff : block_pool.get pool' sib = some boff := by
    rw [hg, if_neg (fun e => hcoff e.symm), if_neg (fun e => hne e.symm), if_pos rfl]
  have hgold : ∀ x, x ≠ cur → x ≠ kid → x ≠ sib →
      block_pool.get pool' x = block_pool.get pool x := by
    intro x h1 h2 h3
    rw [hg, if_neg h1, if_neg h2, if_neg h3]
  have hcls : ∀ x bx, block_pool.get pool' x = some bx →
      (x = kid ∧ bx = bon) ∨ (x = sib ∧ bx = boff) ∨
      (x ≠ kid ∧ x ≠ sib ∧ ∃ bo, block_pool.get pool x = some bo ∧ bo.parent = bx.parent ∧
        bo.pair = bx.pair ∧ bo.blkidx = bx.blkidx ∧ bo.cof = bx.cof ∧
        (x ≠ cur → bo = bx) ∧ (x = cur → bx.status = block_status.Split)) := by
    intro x bx hx
    by_cases h1 : x = cur
    · subst h1
      rw [hgcur] at hx
      injection hx with hx
      subst hx
      exact Or.inr (Or.inr ⟨hcon, hcoff, b, hcur, rfl, rfl, rfl, rfl,
        fun e => absurd rfl e, fun _ => rfl⟩)
    · by_cases h2 : x = kid
      · subst h2
        rw [hgon] at hx
        injection hx with hx
        exact Or.inl ⟨rfl, hx.symm⟩
      · by_cases h3 : x = sib
        · subst h3
          rw [hgoff] at hx
          injection hx with hx
          exact Or.inr (Or.inl ⟨rfl, hx.symm⟩)
        · rw [hgold x h1 h2 h3] at hx
          exact Or.inr (Or.inr ⟨h2, h3, bx, hx, rfl, rfl, rfl, rfl,
            fun _ => rfl, fun e => absurd e h1⟩)
  refine ⟨?_, ?_, ?_, ?_, ?_, ?_, ?_, ?_⟩
  · rw [flist_length_push]; exact h.len
  · intro j x hx
    rcases mem_flist_at_push.mp hx with ⟨e1, _, e2⟩ | hx
    · subst e2
      exact ⟨boff, hgoff, hoff_free, by rw [hoff_idx, e1]⟩
    · obtain ⟨bx, hbx, hf, hi⟩ := h.listed j x hx
      obtain ⟨n1, n2⟩ := hlive_ne x bx hbx
      have n3 : x ≠ cur := fun e => hnot j (e ▸ hx)
      exact ⟨bx, by rw [hgold x n3 n1 n2]; exact hbx, hf, hi⟩
  · intro j
    rw [flist_at_push]
    split
    · refine List.nodup_cons.mpr ⟨?_, h.nodup j⟩
      intro hx
      obtain ⟨bx, hbx, _, _⟩ := h.listed j sib hx
      exact (hlive_ne sib bx hbx).2 rfl
    · exact h.nodup j
  · intro x bx hx hfree hhole
    rcases hcls x bx hx with ⟨e, _⟩ | ⟨e, e'⟩ | ⟨_, _, bo, hbo, _, _, hi, _, heq, hsp⟩
    · exact absurd (by rw [e]) hhole
    · subst e
      subst e'
      rw [hoff_idx]
      exact mem_flist_at_push.mpr (Or.inl ⟨rfl, hioff, rfl⟩)
    · have n3 : x ≠ cur := by
        intro e
        have := hsp e
        rw [hfree] at this
        exact absurd this (by decide)
      have := heq n3
      subst this
      exact mem_flist_at_push.mpr
        (Or.inr (h.free_listed x bo hbo hfree (by simpa using fun e => n3 e.symm)))
  · intro x bx hx
    rcases hcls x bx hx with ⟨_, e'⟩ | ⟨_, e'⟩ | ⟨_, _, bo, hbo, _, _, hi, hc, _, _⟩
    · subst e'
      exact hon_entry
    · subst e'
      rw [hoff_idx]
      exact hoff_entry
    · rw [← hi, ← hc]
      exact h.entry x bo hbo
  · intro x bx par hx hp
    have hparent_old : ∀ bo, block_pool.get pool x = some bo → bo.parent = some par →
        ∃ pb, block_pool.get pool' par = some pb ∧ pb.status = block_status.Split := by
      intro bo hbo hpo
      obtain ⟨pb, hpb, hs⟩ := h.parent_split x bo par hbo hpo
      obtain ⟨n1, n2⟩ := hlive_ne par pb hpb
      have n3 : par ≠ cur := by
        intro e
        subst e
        exact hnopar x bo hbo hpo
      exact ⟨pb, by rw [hgold par n3 n1 n2]; exact hpb, hs⟩
    rcases hcls x bx hx with ⟨_, e'⟩ | ⟨_, e'⟩ | ⟨_, _, bo, hbo, hpo, _, _, _, _, _⟩
    · subst e'
      rw [hon_par] at hp
      injection hp with hp
      subst hp
      exact ⟨_, hgcur, rfl⟩
    · subst e'
      rw [hoff_par] at hp
      injection hp with hp
      subst hp
      exact ⟨_, hgcur, rfl⟩
    · exact hparent_old bo hbo (hpo.trans hp)
  · intro x y bx bz p hx hy hpx hpy
    rcases hcls x bx hx with ⟨ex, ex'⟩ | ⟨ex, ex'⟩ | ⟨_, _, box, hbox, hpox, hprx, _, _, _, _⟩
    · subst ex'
      rw [hon_par] at hpx
      injection hpx with hpx
      subst hpx
      rcases hcls y bz hy with ⟨ey, _⟩ | ⟨ey, _⟩ | ⟨_, _, boy, hboy, hpoy, _, _, _, _, _⟩
      · exact Or.inl (ex.trans ey.symm)
      · exact Or.inr (by rw [hon_pair, ey])
      · exact absurd (hpoy.trans hpy) (hnopar y boy hboy)
    · subst ex'
      rw [hoff_par] at hpx
      injection hpx with hpx
      subst hpx
      rcases hcls y bz hy with ⟨ey, _⟩ | ⟨ey, _⟩ | ⟨_, _, boy, hboy, hpoy, _, _, _, _, _⟩
      · exact Or.inr (by rw [hoff_pair, ey])
      · exact Or.inl (ex.trans ey.symm)
      · exact absurd (hpoy.trans hpy) (hnopar y boy hboy)
    · have hpx' : box.parent = some p := hpox.trans hpx
      have hpc : p ≠ cur := by
        intro e
        subst e
        exact hnopar x box hbox hpx'
      rcases hcls y bz hy with ⟨_, ey'⟩ | ⟨_, ey'⟩ | ⟨_, _, boy, hboy, hpoy, _, _, _, _, _⟩
      · subst ey'
        rw [hon_par] at hpy
        injection hpy with hpy
        exact absurd hpy.symm hpc
      · subst ey'
        rw [hoff_par] at hpy
        injection hpy with hpy
        exact absurd hpy.symm hpc
      · rw [← hprx]
        exact h.siblings x y box boy p hbox hboy hpx' (hpoy.trans hpy)
  · intro x hx
    have hx' : x = kid := by
      injection hx with hx
      exact hx.symm
    subst hx'
    refine ⟨⟨bon, hgon, hon_free⟩, ?_⟩
    intro j hj
    rcases mem_flist_at_push.mp hj with ⟨_, _, e⟩ | hj
    · exact hne e
    · obtain ⟨bx, hbx, _, _⟩ := h.listed j x hj
      exact (hlive_ne x bx hbx).1 rfl

theorem except_eq_ok {ε α : Type} {e : Except ε α} {x : α} (h : e.toOption = some x) :
    e = Except.ok x := by
  cases e with
  | error a => simp [Except.toOption] at h
  | ok a =>
    simp only [Except.toOption, Option.some.injEq] at h
    rw [h]

theorem block_pool.get_map (f : block → block) (pool : List (Option block)) (id : Nat) :
    block_pool.get (pool.map (Option.map f)) id = (block_pool.get pool id).map f := by
  simp only [block_pool.get_eq, List.getElem?_map]
  cases pool[id]? with
  | none => rfl
  | some ob => rfl

theorem block_pool.malloc_map (f : block → block) (pool : List (Option block)) :
    block_pool.malloc (pool.map (Option.map f)) = block_pool.malloc pool := by
  unfold block_pool.malloc
  induction pool with
  | nil => rfl
  | cons ob rest ih =>
    simp only [List.map_cons, List.findIdx_cons, ih]
    cases ob <;> rfl

theorem block_pool.store_map (f : block → block) (pool : List (Option block)) (id : Nat)
    (b : block) :
    block_pool.store (pool.map (Option.map f)) id (f b)
      = (block_pool.store pool id b).map (Option.map f) := by
  unfold block_pool.store
  rw [List.length_map]
  split
  · rw [List.map_set]
    rfl
  · rw [List.map_append]
    rfl

/-- One split commutes with placing the system at an address. -/
theorem split_block_at_address (base align : Nat) (s : buddy_system) (cur next : Nat) :
    split_block (s.at_address base align) cur next
      = (split_block s cur next).map fun r => (r.1.at_address base align, r.2) := by
  unfold split_block
  have hget : block_pool.get (s.at_address base align)._block_pool cur
      = (block_pool.get s._block_pool cur).map (block.at_address base align) :=
    block_pool.get_map _ _ _
  rw [hget]
  cases hb : block_pool.get s._block_pool cur with
  | none => rfl
  | some b =>
    simp only [Option.map_some']
    have htbl : (s.at_address base align)._tbl = s._tbl := rfl
    have hidx : (block.at_address base align b).blkidx = b.blkidx := rfl
    rw [htbl, hidx]
    cases hch : s._tbl.children b.blkidx with
    | none => rfl
    | some ch =>
      obtain ⟨i1, i2⟩ := ch
      simp only
      cases he1 : s._tbl.entry i1 with
      | none => rfl
      | some e1 =>
        cases he2 : s._tbl.entry i2 with
        | none => rfl
        | some e2 =>
          simp only
          have hpool : (s.at_address base align)._block_pool
              = s._block_pool.map (Option.map (block.at_address base align)) := rfl
          have hal : (s.at_address base align)._align = s._align * align := rfl
          have hfl : (s.at_address base align)._flist_v = s._flist_v := rfl
          have hc1 : ∀ pr : Option Nat,
              (⟨e1.cof, i1, ⟨(block.at_address base align b).rgn.ptr,
                  e1.cof * (s._align * align)⟩, pr, some cur, false, false⟩ : block)
              = block.at_address base align
                  ⟨e1.cof, i1, ⟨b.rgn.ptr, e1.cof * s._align⟩, pr, some cur, false, false⟩ := by
            intro pr
            simp only [block.at_address, memrgn_t.at_address, Nat.mul_assoc]
          have hc2 : ∀ pr : Option Nat,
              (⟨e2.cof, i2, ⟨(block.at_address base align b).rgn.ptr
                  + e1.cof * (s._align * align), e2.cof * (s._align * align)⟩,
                pr, some cur, false, false⟩ : block)
              = block.at_address base align
                  ⟨e2.cof, i2, ⟨b.rgn.ptr + e1.cof * s._align, e2.cof * s._align⟩,
                    pr, some cur, false, false⟩ := by
            intro pr
            simp only [block.at_address, memrgn_t.at_address, Nat.mul_assoc, Nat.add_mul,
              Nat.add_assoc]
          have hms : (block.at_address base align b).mark_split
              = block.at_address base align b.mark_split := rfl
          rw [hpool, hal, hfl]
          simp only [hc1, hc2, hms, block_pool.malloc_map, block_pool.store_map]
          split
          · rfl
          · split <;> rfl

/-- Executing a route commutes with placing the system at an address. -/
theorem descend_at_address (base align : Nat) :
    ∀ (path : List Nat) (s : buddy_system) (cur : Nat),
      descend (s.at_address base align) cur path
        = (descend s cur path).map fun r => (r.1.at_address base align, r.2) := by
  intro path
  induction path with
  | nil => intro s cur; rfl
  | cons next rest ih =>
    intro s cur
    simp only [descend]
    rw [split_block_at_address]
    cases split_block s cur next with
    | none => rfl
    | some r =>
      obtain ⟨s1, c1⟩ := r
      simp only [Option.map_some']
      exact ih s1 c1

theorem ceil_units (n a : Nat) (ha : 0 < a) : (n * a + a - 1) / a = n := by
  have h : n * a + a - 1 = (a - 1) + a * n := by
    rw [Nat.mul_comm n a]
    omega
  rw [h, Nat.add_mul_div_left _ _ ha, Nat.div_eq_of_lt (by omega), Nat.zero_add]

/-- `allocate` commutes with placing a system described in units at an address:
a request of `n * align` bytes is served as the request of `n` units is. -/
theorem allocate_at_address (base align : Nat) (halign : 0 < align) (s : buddy_system)
    (hs : s._align = 1) (n : Nat) :
    (s.at_address base align).allocate (n * align)
      = (s.allocate n).map fun r => (base + r.1 * align, r.2.at_address base align) := by
  have hreq1 : (n * align + (s.at_address base align)._align - 1)
      / (s.at_address base align)._align = n := by
    have : (s.at_address base align)._align = align := by
      show s._align * align = align
      rw [hs, Nat.one_mul]
    rw [this]
    exact ceil_units n align halign
  have hreq2 : (n + s._align - 1) / s._align = n := by
    rw [hs]
    simp
  unfold buddy_system.allocate
  simp only [hreq1, hreq2]
  have htbl : (s.at_address base align)._tbl = s._tbl := rfl
  have hfl : (s.at_address base align)._flist_v = s._flist_v := rfl
  rw [htbl, hfl]
  by_cases hroot : s._tbl.root_cof < n
  · simp only [hroot, if_true]
    rfl
  · simp only [hroot, if_false]
    cases s._tbl.seed n with
    | none => rfl
    | some seed =>
      simp only
      cases find_route s._tbl s._flist_v seed with
      | none => rfl
      | some route =>
        simp only
        cases route.reverse with
        | nil => rfl
        | cons top path =>
          simp only
          cases flist_at s._flist_v top with
          | nil => rfl
          | cons id rest =>
            simp only
            have hst : (⟨(s.at_address base align)._rgn, (s.at_address base align)._align,
                  (s.at_address base align)._max_blk_size, s._tbl,
                  (s.at_address base align)._block_pool, flist_pop s._flist_v top, route,
                  (s.at_address base align)._total_allocated_size⟩ : buddy_system)
                = (⟨s._rgn, s._align, s._max_blk_size, s._tbl, s._block_pool,
                    flist_pop s._flist_v top, route, s._total_allocated_size⟩ :
                    buddy_system).at_address base align := rfl
            rw [hst, descend_at_address]
            cases descend ⟨s._rgn, s._align, s._max_blk_size, s._tbl, s._block_pool,
                flist_pop s._flist_v top, route, s._total_allocated_size⟩ id path with
            | none => rfl
            | some r =>
              obtain ⟨s1, leaf⟩ := r
              simp only [Option.map_some']
              have hget : block_pool.get (s1.at_address base align)._block_pool leaf
                  = (block_pool.get s1._block_pool leaf).map (block.at_address base align) :=
                block_pool.get_map _ _ _
              rw [hget]
              cases block_pool.get s1._block_pool leaf with
              | none => rfl
              | some b =>
                simp only [Option.map_some', Except.map]
                have hpool : (s1.at_address base align)._block_pool
                    = s1._block_pool.map (Option.map (block.at_address base align)) := rfl
                have hmi : (block.at_address base align b).mark_in_use
                    = block.at_address base align b.mark_in_use := rfl
                have htot : (s1.at_address base align)._total_allocated_size
                      + (block.at_address base align b).cof * (s1.at_address base align)._align
                    = (s1._total_allocated_size + b.cof * s1._align) * align := by
                  show s1._total_allocated_size * align + b.cof * (s1._align * align) = _
                  rw [Nat.add_mul, Nat.mul_assoc]
                rw [hpool, hmi, block_pool.store_map, htot]
                rfl

/-- The constructed system of the documented example, at any base address and
alignment. -/
theorem construct_at_address (base align : Nat) (halign : 0 < align) :
    buddy_system.construct { ptr := base, size := 232 * align } align 3
      = Except.ok (example_state_0.at_address base align) := by
  have hdiv : 232 * align / align = 232 := Nat.mul_div_cancel _ halign
  unfold buddy_system.construct
  rw [buddy_system.init_ok buddy_system.default { ptr := base, size := 232 * align } align 3
    documented_table halign (by simp [is_aligned_address, buddy_system.default])
    (by rw [hdiv]; exact table_init_232_3 align) (by decide)]
  have hfl : flist_push (_init_free_list_vec documented_table.size) 0
      (block_pool.malloc buddy_system.default._block_pool)
      = [[0], [], [], [], [], [], [], [], [], []] := by decide
  simp only [hfl, hdiv]
  simp [buddy_system.at_address, example_state_0, block.at_address, memrgn_t.at_address,
    buddy_system.default, block_pool.malloc, block_pool.store]

/-- The two allocations of the documented example, in alignment units. -/
theorem example_allocations :
    example_state_0.allocate 3 = Except.ok (8, example_state_1) ∧
    example_state_1.allocate 3 = Except.ok (12, example_state_2) :=
  ⟨except_eq_ok (by decide!), except_eq_ok (by decide!)⟩

/-- C5: on a freshly constructed system with region size `232 * align` and
`min_cof = 3`, the first `allocate(3 * align)` succeeds along the route
`8->7->4->3->2->1->0` and returns the block of coefficient 4, leaving free
blocks of coefficients 116, 58, 29, 14, 8 and 3 along the single split path
`232, 116, 58, 29, 15, 7`; the second `allocate(3 * align)` succeeds on the
cache-hit path (route `9`), returns the block of coefficient 3 that is the
pair of the first result, and splits no block: the pool differs only in that
block being in use. -/
theorem first_two_allocations (base align : Nat) (halign : 0 < align) :
    buddy_system.construct { ptr := base, size := 232 * align } align 3
      = Except.ok (example_state_0.at_address base align) ∧
    (example_state_0.at_address base align).allocate (3 * align)
      = Except.ok (base + 8 * align, example_state_1.at_address base align) ∧
    (example_state_1.at_address base align).allocate (3 * align)
      = Except.ok (base + 12 * align, example_state_2.at_address base align) ∧
    example_state_1._route = [8, 7, 4, 3, 2, 1, 0] ∧
    ((example_state_1._block_pool.filterMap id).filter fun b => b.in_use).map
        (fun b => (b.rgn.ptr, b.cof)) = [(8, 4)] ∧
    ((example_state_1._block_pool.filterMap id).filter
        fun b => decide (b.status = block_status.Free)).map (fun b => b.cof)
      = [116, 58, 29, 14, 8, 3] ∧
    ((example_state_1._block_pool.filterMap id).filter
        fun b => decide (b.status = block_status.Split)).map (fun b => (b.cof, b.parent))
      = [(232, none), (116, some 0), (58, some 1), (29, some 3), (15, some 5), (7, some 7)] ∧
    example_state_2._route = [9] ∧
    block_pool.get example_state_1._block_pool 11
      = some ⟨4, 8, ⟨8, 4⟩, some 12, some 10, true, false⟩ ∧
    block_pool.get example_state_1._block_pool 12
      = some ⟨3, 9, ⟨12, 3⟩, some 11, some 10, false, false⟩ ∧
    example_state_2._block_pool = block_pool.store example_state_1._block_pool 12
      (block.mark_in_use ⟨3, 9, ⟨12, 3⟩, some 11, some 10, false, false⟩) ∧
    example_state_2._flist_v = flist_pop example_state_1._flist_v 9 := by
  refine ⟨construct_at_address base align halign, ?_, ?_, rfl, by decide, by decide, by decide,
    rfl, by decide, by decide, by decide, by decide⟩
  · rw [allocate_at_address base align halign example_state_0 rfl 3, example_allocations.1]
    rfl
  · rw [allocate_at_address base align halign example_state_1 rfl 3, example_allocations.2]
    rfl

/-- C5, at base address 4096 with alignment 8 (a region of 1856 bytes). -/
theorem first_two_allocations_witness :
    buddy_system.construct { ptr := 4096, size := 232 * 8 } 8 3
      = Except.ok (example_state_0.at_address 4096 8) ∧
    (example_state_0.at_address 4096 8).allocate (3 * 8)
      = Except.ok (4096 + 8 * 8, example_state_1.at_address 4096 8) ∧
    (example_state_1.at_address 4096 8).allocate (3 * 8)
      = Except.ok (4096 + 12 * 8, example_state_2.at_address 4096 8) ∧
    example_state_1._route = [8, 7, 4, 3, 2, 1, 0] ∧
    ((example_state_1._block_pool.filterMap id).filter fun b => b.in_use).map
        (fun b => (b.rgn.ptr, b.cof)) = [(8, 4)] ∧
    ((example_state_1._block_pool.filterMap id).filter
        fun b => decide (b.status = block_status.Free)).map (fun b => b.cof)
      = [116, 58, 29, 14, 8, 3] ∧
    ((example_state_1._block_pool.filterMap id).filter
        fun b => decide (b.status = block_status.Split)).map (fun b => (b.cof, b.parent))
      = [(232, none), (116, some 0), (58, some 1), (29, some 3), (15, some 5), (7, some 7)] ∧
    example_state_2._route = [9] ∧
    block_pool.get example_state_1._block_pool 11
      = some ⟨4, 8, ⟨8, 4⟩, some 12, some 10, true, false⟩ ∧
    block_pool.get example_state_1._block_pool 12
      = some ⟨3, 9, ⟨12, 3⟩, some 11, some 10, false, false⟩ ∧
    example_state_2._block_pool = block_pool.store example_state_1._block_pool 12
      (block.mark_in_use ⟨3, 9, ⟨12, 3⟩, some 11, some 10, false, false⟩) ∧
    example_state_2._flist_v = flist_pop example_state_1._flist_v 9 :=
  first_two_allocations 4096 8 (by decide)

end ash
